import Mathlib

/-!
Verification of the MCP342x A/D converter driver (mcp342x.c / mcp342x.h):
a shallow embedding of the driver's data model and operations, followed by
theorems about the channel/device registry, the conversion pipeline and the
decode arithmetic.

Modelling conventions:
  - machine integers are `Nat` with explicit `% 2 ^ w` where a bit-field or
    a `u8_t` counter can wrap (ChLo/ChHi are 4-bit fields, NumCh 3 bits,
    the device/channel counters are `u8_t`);
  - the C `int` results (device index, error codes) are `Int`;
  - the external bus queue and timer are collaborators: their outcome is an
    explicit argument (`queueRV`, `readRV`, the buffer a completed read
    transaction left behind) and the transaction a function queues is part
    of its result (read length, written byte, armed delay);
  - the stored endpoint value (a C `float`) is modelled as an exact
    rational, so the scaling arithmetic is exact arithmetic;
  - `float`/pointer fields the claims never touch (I2C handle, semaphore,
    timer handle, cvar definition words) are not represented.
-/

namespace MCP342X

/-- Error codes from the external x_errors_events.h. Their exact numeric
values are outside this repository; the driver only needs erSUCCESS = 0 and
the failure codes negative and distinct, which is how they are modelled. -/
def erSUCCESS : Int := 0

/-- Generic failure code (also what mcp342xMap2Dev returns on a miss). -/
def erFAILURE : Int := -1

/-- Invalid-parameter error code. -/
def erINV_PARA : Int := -2

/-- Invalid-operation error code (mcp342xConfigMode before enumeration). -/
def erINV_OPERATION : Int := -3

/-- MCP342X_T_SNS_MIN (mcp342x.c line 63). -/
def MCP342X_T_SNS_MIN : Nat := 250

/-- MCP342X_T_SNS (mcp342x.c line 64). -/
def MCP342X_T_SNS : Nat := 15000

/-- Resolution option mcp342xR18_3_75 = 3 (mcp342x.h line 30). -/
def mcp342xR18_3_75 : Nat := 3

/-- Gain option mcp342xG8 = 3 (mcp342x.h line 32). -/
def mcp342xG8 : Nat := 3

/-- Mode option mcp342xM1 = 1, the default voltage mode (mcp342x.h line 37). -/
def mcp342xM1 : Nat := 1

/-- Mode option mcp342xM3 = 3 (mcp342x.h line 37). -/
def mcp342xM3 : Nat := 3

/-- mcp3424NUM_CHAN = 4 (mcp342x.h line 15). -/
def mcp3424NUM_CHAN : Nat := 4

/-- The conversion-delay table mcp342xDelay[4] = \x7b5, 17, 67, 267\x7d in
milliseconds (mcp342x.c lines 80-85), read at the rate index. -/
def mcp342xDelay (r : Nat) : Nat := [5, 17, 67, 267].getD r 0

/-- Modelled from the spec: the chip's required settling time per resolution,
in microseconds — 12 bit 4.167 ms, 14 bit 16.667 ms, 16 bit 66.667 ms,
18 bit 266.667 ms (spec section 3, Conversion Delay Table). Used only to
compare the code's millisecond table against the spec's words. -/
def requiredDelayUs (r : Nat) : Nat := [4167, 16667, 66667, 266667].getD r 0

/-- mcp342x_cfg_t (mcp342x.h lines 43-52): the bit-field view of the one
configuration/status byte. Field widths: PGA 2 bits, RATE 2 bits, OS_C 1,
CHAN 2, nRDY 1, LSB first. -/
structure mcp342x_cfg_t where
  PGA : Nat
  RATE : Nat
  OS_C : Nat
  CHAN : Nat
  nRDY : Nat
deriving DecidableEq

instance : Inhabited mcp342x_cfg_t := ⟨⟨0, 0, 0, 0, 0⟩⟩

/-- Reading the union through the bit fields: unpack a configuration byte
(assignment to .Conf in the C code). -/
def cfgOfByte (b : Nat) : mcp342x_cfg_t :=
  { PGA := b % 4, RATE := b / 4 % 4, OS_C := b / 16 % 2, CHAN := b / 32 % 4, nRDY := b / 128 % 2 }

/-- Reading the union through .Conf: pack the bit fields into the byte. -/
def byteOfCfg (c : mcp342x_cfg_t) : Nat :=
  c.PGA % 4 + c.RATE % 4 * 4 + c.OS_C % 2 * 16 + c.CHAN % 4 * 32 + c.nRDY % 2 * 128

/-- The fields of epw_t (the external endpoint record) that the driver
touches: the stored value (var, a cvF32 slot modelled as an exact rational),
the sense intervals Tsns/Rsns, the per-secondary-sense flag fSECsns, the
busy flag fBusy and the logical-channel index idx. -/
structure epw_t where
  var : ℚ
  Tsns : Nat
  Rsns : Nat
  fSECsns : Nat
  fBusy : Bool
  idx : Nat
deriving DecidableEq

instance : Inhabited epw_t := ⟨⟨0, 0, 0, 0, false, 0⟩⟩

/-- mcp342x_t (mcp342x.h lines 55-69), the fields the driver logic uses.
ChLo and ChHi are 4-bit bit-fields (stored mod 16), NumCh a 3-bit field,
Chan the 4-entry per-physical-channel configuration array and Modes the
packed u32 of 2-bit mode tags. -/
structure mcp342x_t where
  ChLo : Nat
  ChHi : Nat
  NumCh : Nat
  Chan : List mcp342x_cfg_t
  Modes : Nat
deriving DecidableEq

instance : Inhabited mcp342x_t := ⟨⟨0, 0, 0, List.replicate 4 default, 0⟩⟩

/-- The driver's global state (mcp342x.c lines 68-70): the device table
psaMCP342X (devs, the empty list standing for the NULL pointer before the
first mcp342xConfig call), the endpoint table psaMCP342X_EP (eps), and the
u8_t counters mcp342xNumDev / mcp342xNumCh. -/
structure MCPState where
  devs : List mcp342x_t
  eps : List epw_t
  numDev : Nat
  numCh : Nat
deriving DecidableEq

/-- INRANGE(lo, x, hi): the external macro used at mcp342x.c lines 107 and
115, an inclusive range test. -/
def INRANGE (lo x hi : Nat) : Prop := lo ≤ x ∧ x ≤ hi

instance (lo x hi : Nat) : Decidable (INRANGE lo x hi) := by
  unfold INRANGE; infer_instance

/-- The loop of mcp342xMap2Dev (mcp342x.c lines 105-111), scanning device
indices upward from dev; the first argument is the remaining iteration
budget (the loop runs at most numDev iterations, so mcp342xMap2Dev passes
numDev, making this exactly the C loop). -/
def map2DevLoop (s : MCPState) (LogCh : Nat) : Nat → Nat → Int
  | 0, _ => erFAILURE
  | fuel + 1, dev =>
      if dev < s.numDev then
        if INRANGE (s.devs.getD dev default).ChLo LogCh (s.devs.getD dev default).ChHi then
          (dev : Int)
        else
          map2DevLoop s LogCh fuel (dev + 1)
      else
        erFAILURE

/-- mcp342xMap2Dev (mcp342x.c lines 105-111): first registered device whose
[ChLo, ChHi] range holds the logical channel, erFAILURE when none does. -/
def mcp342xMap2Dev (s : MCPState) (LogCh : Nat) : Int :=
  map2DevLoop s LogCh s.numDev 0

/-- The loop body of mcp342xSetBusy: walk the endpoint list carrying the
running index i0, setting fBusy on every endpoint whose index is below
numCh and inside [lo, hi]. -/
def setBusyList (lo hi numCh : Nat) (f : Bool) : Nat → List epw_t → List epw_t
  | _, [] => []
  | i0, ep :: rest =>
      (if i0 < numCh ∧ INRANGE lo i0 hi then { ep with fBusy := f } else ep) ::
        setBusyList lo hi numCh f (i0 + 1) rest

/-- mcp342xSetBusy (mcp342x.c lines 113-117): mark every endpoint of device
Dev (every logical index in its [ChLo, ChHi] range, scanning 0 ≤ i < numCh)
with the given busy flag. -/
def mcp342xSetBusy (s : MCPState) (Dev : Nat) (f : Bool) : MCPState :=
  let D := s.devs.getD Dev default
  { s with eps := setBusyList D.ChLo D.ChHi s.numCh f 0 s.eps }

/-- The busy flag of logical channel i as stored in the endpoint table. -/
def busyOf (s : MCPState) (i : Nat) : Bool := (s.eps.getD i default).fBusy

/-- mcp342xSetSense (mcp342x.c lines 131-143) on the primary endpoint psEWP
and the secondary endpoint psEWS; returns the updated pair (primary first). -/
def mcp342xSetSense (psEWP psEWS : epw_t) : epw_t × epw_t :=
  let psEWS1 := if psEWS.Tsns < MCP342X_T_SNS_MIN then { psEWS with Tsns := MCP342X_T_SNS_MIN } else psEWS
  let psEWP1 := if psEWP.Tsns > psEWS1.Tsns then { psEWP with Tsns := psEWS1.Tsns } else psEWP
  let psEWS2 := if psEWP1.fSECsns = 0 then { psEWS1 with Tsns := 0 } else psEWS1
  let psEWP2 := { psEWP1 with Rsns := psEWP1.Tsns }
  (psEWP2, psEWS2)

/-- The sign-extension step of mcp342xReadCB (mcp342x.c lines 155-159):
when the configured resolution read back in buffer byte 3 is not 18 bit,
byte 0 is overwritten with 0xFF or 0x00 according to the top bit of byte 1;
at 18-bit resolution the buffer is left as read. -/
def mcp342xSignExtend (buf : List Nat) : List Nat :=
  if (cfgOfByte (buf.getD 3 0)).RATE ≠ mcp342xR18_3_75 then
    buf.set 0 (if buf.getD 1 0 &&& 0x80 ≠ 0 then 0xFF else 0x00)
  else
    buf

/-- The composition step of mcp342xReadCB (mcp342x.c line 161):
int Raw = (buf[0] << 16) | (buf[1] << 8) | buf[2]. The three bytes occupy
bits 0-23 and the value is below 2 ^ 24, so the conversion of the C
expression to the 32-bit int is exact and the result is the Nat value. -/
def mcp342xRaw (buf : List Nat) : Int :=
  ((buf.getD 0 0 <<< 16 ||| buf.getD 1 0 <<< 8 ||| buf.getD 2 0 : Nat) : Int)

/-- The scaling step of mcp342xReadCB (mcp342x.c line 163): the C float
expression (float) Raw * 0.000015625, modelled as exact rational
arithmetic with the literal 0.000015625 = 15625 / 1000000000. -/
def mcp342xScale (Raw : Int) : ℚ := (Raw : ℚ) * (15625 / 1000000000)

/-- mcp342xReadCB (mcp342x.c lines 151-166), step 3 of the pipeline: clear
the busy flags of the whole owning device, sign-extend and compose the
decode buffer (buf is the content of the shared 4-byte buffer when the read
transaction completed), scale, and store the value into the logical
channel's endpoint slot. ch is psEWS->idx of the endpoint passed by the
timer stage. -/
def mcp342xReadCB (s : MCPState) (buf : List Nat) (ch : Nat) : MCPState :=
  let s1 := mcp342xSetBusy s (mcp342xMap2Dev s ch).toNat false
  let Raw := mcp342xRaw (mcp342xSignExtend buf)
  { s1 with eps := s1.eps.set ch { s1.eps.getD ch default with var := mcp342xScale Raw } }

/-- mcp342xTimerHdlr (mcp342x.c lines 172-179), step 2 of the pipeline:
on conversion-timer expiry compute the read length xLen (4 bytes at 18-bit
resolution, else 3) and queue a read of xLen bytes at buffer offset
4 - xLen. Returns (xLen, offset) of the queued transaction. -/
def mcp342xTimerHdlr (s : MCPState) (ch : Nat) : Nat × Nat :=
  let psMCP342X := s.devs.getD (mcp342xMap2Dev s ch).toNat default
  let xLen :=
    if (psMCP342X.Chan.getD (ch - psMCP342X.ChLo) default).RATE = mcp342xR18_3_75 then 4 else 3
  (xLen, 4 - xLen)

/-- The RATE field of the channel configuration record owned by logical
channel ch: the resolution mcp342xTimerHdlr and mcp342xSense read. -/
def chanRATE (s : MCPState) (ch : Nat) : Nat :=
  let D := s.devs.getD (mcp342xMap2Dev s ch).toNat default
  (D.Chan.getD (ch - D.ChLo) default).RATE

/-- What one mcp342xSense call produces: the new driver state, the value the
function returns (the bus-queue result), and the two parameters of the
queued write transaction — the delay the timer will be armed with and the
configuration byte written to the chip. -/
structure SenseResult where
  st : MCPState
  rv : Int
  delayMs : Nat
  confByte : Nat
deriving DecidableEq

/-- mcp342xSense (mcp342x.c lines 185-195), step 1 of the pipeline: resolve
the owning device, mark the whole device busy, and queue the configuration
write with the delay from mcp342xDelay at the channel's RATE. The bus-queue
outcome is the argument queueRV; the C function returns it unchanged and
its state effect (the busy marking) happens before the queue call, so it is
the same for every outcome. -/
def mcp342xSense (s : MCPState) (ch : Nat) (queueRV : Int) : SenseResult :=
  let dev := (mcp342xMap2Dev s ch).toNat
  let s1 := mcp342xSetBusy s dev true
  let psMCP342X := s1.devs.getD dev default
  let sChCfg := psMCP342X.Chan.getD (ch - psMCP342X.ChLo) default
  { st := s1, rv := queueRV, delayMs := mcp342xDelay sChCfg.RATE, confByte := byteOfCfg sChCfg }

/-- What one mcp342xIdentify probe produces: the returned code, the updated
u8_t device/channel counters and the device index assigned on acceptance
(none when the device was not registered; recording Type/Speed/DevIdx into
the I2C descriptor happens exactly when devIdx is some). -/
structure IdentifyResult where
  rv : Int
  numDev : Nat
  numCh : Nat
  devIdx : Option Nat
deriving DecidableEq

/-- mcp342xIdentify (mcp342x.c lines 222-239): readRV is the outcome of the
4-byte probe read and u8Buf the bytes it returned. The device is registered
(next sequential index assigned, channel space extended by 4) exactly when
the read succeeded and byte 3 is the power-on default 0x90; the function
returns readRV in every case. -/
def mcp342xIdentify (readRV : Int) (u8Buf : List Nat) (numDev numCh : Nat) : IdentifyResult :=
  if readRV = erSUCCESS ∧ u8Buf.getD 3 0 = 0x90 then
    { rv := readRV, numDev := (numDev + 1) % 256, numCh := (numCh + 4) % 256,
      devIdx := some numDev }
  else
    { rv := readRV, numDev := numDev, numCh := numCh, devIdx := none }

/-- maskSET2B(var, ch, v, u32_t) — an external utility macro, modelled from
its use in the spec's words: store v in the 2-bit field number ch of the
packed flag word (the spec's per-channel 2-bit mode tag). Written as exact
base-4 digit replacement, which agrees with the mask-and-or macro on u32
values for the field indices 0-15 the driver uses. -/
def maskSET2B (w ch v : Nat) : Nat :=
  w % 4 ^ ch + v % 4 * 4 ^ ch + w / 4 ^ (ch + 1) * 4 ^ (ch + 1)

/-- The 2-bit mode tag of physical channel ch in a packed Modes word. -/
def modeTagOf (w ch : Nat) : Nat := w / 4 ^ ch % 4

/-- The two bit-field assignments psaMCP342X[dev].Chan[ch].PGA = gain and
.RATE = rate (mcp342x.c lines 209-210): the 2-bit fields keep the low two
bits of the assigned value. -/
def setChanCfg (c : mcp342x_cfg_t) (gain rate : Nat) : mcp342x_cfg_t :=
  { c with PGA := gain % 4, RATE := rate % 4 }

/-- The whole per-device update of one mcp342xConfigMode iteration: channel
record ch updated through setChanCfg and the 2-bit mode tag ch updated
through maskSET2B. -/
def updDev (D : mcp342x_t) (ch mode rate gain : Nat) : mcp342x_t :=
  { D with
    Chan := D.Chan.set ch (setChanCfg (D.Chan.getD ch default) gain rate),
    Modes := maskSET2B D.Modes ch mode }

/-- One iteration of the mcp342xConfigMode loop body (mcp342x.c lines
207-211): resolve the owning device of logical channel Xcur, and set the
channel record's PGA and RATE (2-bit fields) and the device's 2-bit mode
tag. A negative device index would index psaMCP342X out of bounds in C
(undefined); it is modelled as leaving the state unchanged and the theorems
only cover resolvable channels. -/
def applyModeOne (s : MCPState) (mode rate gain Xcur : Nat) : MCPState :=
  let di := mcp342xMap2Dev s Xcur
  if di < 0 then s
  else
    let dev := di.toNat
    let D := s.devs.getD dev default
    { s with devs := s.devs.set dev (updDev D (Xcur - D.ChLo) mode rate gain) }

/-- The do-while loop of mcp342xConfigMode (mcp342x.c lines 206-212): apply
the triple to Xcur, then continue while ++Xcur < Xmax. The body always runs
at least once. The first Nat is the remaining iteration budget; the loop
re-enters its body at most Xmax - Xcur - 1 more times, so mcp342xConfigMode
passes Xmax - Xcur, making this exactly the C do-while. -/
def configModeLoop (mode rate gain : Nat) : Nat → MCPState → Nat → Nat → MCPState
  | 0, s, Xcur, _ => applyModeOne s mode rate gain Xcur
  | fuel + 1, s, Xcur, Xmax =>
      if Xcur + 1 < Xmax then
        configModeLoop mode rate gain fuel (applyModeOne s mode rate gain Xcur) (Xcur + 1) Xmax
      else
        applyModeOne s mode rate gain Xcur

/-- mcp342xConfigMode (mcp342x.c lines 197-214): reject when no device is
enumerated, reject mode/rate/gain above 3 with erINV_PARA leaving the state
untouched, else run the configuration loop and return erSUCCESS. -/
def mcp342xConfigMode (s : MCPState) (mode rate gain Xcur Xmax : Nat) : MCPState × Int :=
  if s.devs = [] then (s, erINV_OPERATION)
  else if mcp342xM3 < mode ∨ mcp342xR18_3_75 < rate ∨ mcp342xG8 < gain then (s, erINV_PARA)
  else (configModeLoop mode rate gain (Xmax - Xcur) s Xcur Xmax, erSUCCESS)

/-- The set of logical channels one mcp342xConfigMode call writes: the
do-while covers Xcur and every further index below Xmax. -/
def coveredBy (Xcur Xmax i : Nat) : Prop := Xcur ≤ i ∧ (i < Xmax ∨ i = Xcur)

instance (Xcur Xmax i : Nat) : Decidable (coveredBy Xcur Xmax i) := by
  unfold coveredBy; infer_instance

/-- Logical channel i resolves cleanly: mcp342xMap2Dev finds an owning
device that really exists in the table and whose Chan array is long enough
for the physical-channel offset. Every state mcp342xConfig builds satisfies
this for every in-range channel. -/
def mapOK (s : MCPState) (i : Nat) : Prop :=
  0 ≤ mcp342xMap2Dev s i ∧
  (mcp342xMap2Dev s i).toNat < s.devs.length ∧
  i - (s.devs.getD (mcp342xMap2Dev s i).toNat default).ChLo <
    (s.devs.getD (mcp342xMap2Dev s i).toNat default).Chan.length

instance (s : MCPState) (i : Nat) : Decidable (mapOK s i) := by
  unfold mapOK; infer_instance

/-- The (gain, rate, mode-tag) triple stored for logical channel i: the
PGA and RATE fields of the owning device's channel record and the device's
2-bit mode tag, none when no device owns i. -/
def chanTriple (s : MCPState) (i : Nat) : Option (Nat × Nat × Nat) :=
  let di := mcp342xMap2Dev s i
  if di < 0 then none
  else
    let D := s.devs.getD di.toNat default
    let c := D.Chan.getD (i - D.ChLo) default
    some (c.PGA, c.RATE, modeTagOf D.Modes (i - D.ChLo))

/-- The default channel record mcp342xConfig installs (mcp342x.c lines
277-280): Conf = 0x90 then CHAN = ch through the 2-bit field. -/
def defaultChanCfg (ch : Nat) : mcp342x_cfg_t :=
  { cfgOfByte 0x90 with CHAN := ch % 4 }

/-- The per-device part of mcp342xConfig (mcp342x.c lines 271-283): fix the
device's logical-channel range from the running channel counter (through
the 4-bit ChLo/ChHi bit-fields), install the power-on channel defaults and
the default voltage mode tags, and advance the u8_t channel counter. -/
def mcp342xConfigDev (s : MCPState) (DevIdx : Nat) : MCPState :=
  let ChLo := s.numCh % 16
  let NumCh := mcp3424NUM_CHAN
  let ChHi := (ChLo + NumCh - 1) % 16
  let D : mcp342x_t :=
    { ChLo := ChLo, ChHi := ChHi, NumCh := NumCh,
      Chan := (List.range NumCh).map defaultChanCfg,
      Modes := (List.range NumCh).foldl (fun M ch => maskSET2B M ch mcp342xM1) 0 }
  { s with devs := s.devs.set DevIdx D, numCh := (s.numCh + NumCh) % 256 }

/-- mcp342xConfig (mcp342x.c lines 241-286) for the device DevIdx: on the
first call (device table still NULL, modelled as the empty list) allocate
and zero the endpoint table sized to the identified channel count (each
endpoint getting Tsns = Rsns = MCP342X_T_SNS and its index), allocate the
zeroed device table sized to the identified device count, and reset the
channel counter to re-count ranges; then configure the device. -/
def mcp342xConfig (s : MCPState) (DevIdx : Nat) : MCPState :=
  if s.devs = [] then
    let eps := (List.range s.numCh).map
      (fun ch => { (default : epw_t) with Tsns := MCP342X_T_SNS, Rsns := MCP342X_T_SNS, idx := ch })
    mcp342xConfigDev { s with eps := eps, devs := List.replicate s.numDev default, numCh := 0 } DevIdx
  else
    mcp342xConfigDev s DevIdx

/-- The driver state after N successful identification probes: no tables
allocated yet, mcp342xNumDev = N and mcp342xNumCh = 4 N through the u8_t
counters. -/
def idState (N : Nat) : MCPState :=
  { devs := [], eps := [], numDev := N % 256, numCh := 4 * N % 256 }

/-- The driver state after N devices were identified and then configured in
discovery order (mcp342xConfig called with DevIdx = 0, 1, ...). -/
def configAll (N : Nat) : MCPState :=
  (List.range N).foldl mcp342xConfig (idState N)

/-! Helper lemmas: list access through set, the setBusyList walk, the
mcp342xMap2Dev scan and the packed 2-bit mode tags. -/

theorem listGetD_set_self {α : Type} [Inhabited α] :
    ∀ (l : List α) (i : Nat) (a : α), i < l.length → (l.set i a).getD i default = a
  | [], i, a, h => by simp at h
  | x :: l, 0, a, _ => by simp [List.set]
  | x :: l, i + 1, a, h => by
      simpa [List.set, List.getD_cons_succ] using
        listGetD_set_self l i a (by simpa using Nat.lt_of_succ_lt_succ h)

theorem listGetD_set_ne {α : Type} [Inhabited α] :
    ∀ (l : List α) (i j : Nat) (a : α), i ≠ j → (l.set i a).getD j default = l.getD j default
  | [], _, _, _, _ => by simp [List.set]
  | x :: l, 0, 0, a, h => absurd rfl h
  | x :: l, 0, j + 1, a, _ => by simp [List.set, List.getD_cons_succ]
  | x :: l, i + 1, 0, a, _ => by simp [List.set]
  | x :: l, i + 1, j + 1, a, h => by
      simpa [List.set, List.getD_cons_succ] using
        listGetD_set_ne l i j a (fun hc => h (by omega))

theorem listGetD_set {α : Type} [Inhabited α] (l : List α) (i j : Nat) (a : α) :
    (l.set i a).getD j default =
      if i = j ∧ j < l.length then a else l.getD j default := by
  by_cases hij : i = j
  · subst hij
    by_cases hlen : i < l.length
    · rw [listGetD_set_self l i a hlen, if_pos ⟨rfl, hlen⟩]
    · rw [List.set_eq_of_length_le (by omega), if_neg (by omega)]
  · rw [listGetD_set_ne l i j a hij, if_neg (fun hc => hij hc.1)]

theorem setBusyList_length (lo hi n : Nat) (f : Bool) :
    ∀ (i0 : Nat) (eps : List epw_t), (setBusyList lo hi n f i0 eps).length = eps.length
  | _, [] => rfl
  | i0, ep :: rest => by
      simp [setBusyList, setBusyList_length lo hi n f (i0 + 1) rest]

theorem setBusyList_getD (lo hi n : Nat) (f : Bool) :
    ∀ (eps : List epw_t) (i0 j : Nat),
      (setBusyList lo hi n f i0 eps).getD j default =
        if j < eps.length ∧ i0 + j < n ∧ INRANGE lo (i0 + j) hi
        then { eps.getD j default with fBusy := f } else eps.getD j default
  | [], i0, j => by simp [setBusyList]
  | ep :: rest, i0, 0 => by
      simp only [setBusyList, List.getD_cons_zero, List.length_cons, Nat.add_zero]
      by_cases h : i0 < n ∧ INRANGE lo i0 hi
      · rw [if_pos h, if_pos ⟨Nat.succ_pos _, h.1, h.2⟩]
      · rw [if_neg h, if_neg (fun hc => h ⟨hc.2.1, hc.2.2⟩)]
  | ep :: rest, i0, j + 1 => by
      simp only [setBusyList, List.getD_cons_succ, List.length_cons]
      rw [setBusyList_getD lo hi n f rest (i0 + 1) j]
      have harith : i0 + 1 + j = i0 + (j + 1) := by omega
      rw [harith]
      by_cases h : j < rest.length ∧ i0 + (j + 1) < n ∧ INRANGE lo (i0 + (j + 1)) hi
      · rw [if_pos h, if_pos ⟨by omega, h.2.1, h.2.2⟩]
      · rw [if_neg h, if_neg (fun hc => h ⟨by omega, hc.2.1, hc.2.2⟩)]

theorem setBusy_devs (s : MCPState) (Dev : Nat) (f : Bool) :
    (mcp342xSetBusy s Dev f).devs = s.devs := rfl

theorem setBusy_numDev (s : MCPState) (Dev : Nat) (f : Bool) :
    (mcp342xSetBusy s Dev f).numDev = s.numDev := rfl

theorem setBusy_numCh (s : MCPState) (Dev : Nat) (f : Bool) :
    (mcp342xSetBusy s Dev f).numCh = s.numCh := rfl

theorem setBusy_getD (s : MCPState) (Dev : Nat) (f : Bool) (i : Nat) :
    (mcp342xSetBusy s Dev f).eps.getD i default =
      if i < s.eps.length ∧ i < s.numCh ∧
         INRANGE (s.devs.getD Dev default).ChLo i (s.devs.getD Dev default).ChHi
      then { s.eps.getD i default with fBusy := f } else s.eps.getD i default := by
  show (setBusyList _ _ _ f 0 s.eps).getD i default = _
  rw [setBusyList_getD]
  simp only [Nat.zero_add]

theorem busyOf_setBusy (s : MCPState) (Dev : Nat) (f : Bool) (i : Nat) :
    busyOf (mcp342xSetBusy s Dev f) i =
      if i < s.eps.length ∧ i < s.numCh ∧
         INRANGE (s.devs.getD Dev default).ChLo i (s.devs.getD Dev default).ChHi
      then f else busyOf s i := by
  unfold busyOf
  rw [setBusy_getD]
  by_cases h : i < s.eps.length ∧ i < s.numCh ∧
      INRANGE (s.devs.getD Dev default).ChLo i (s.devs.getD Dev default).ChHi
  · rw [if_pos h, if_pos h]
  · rw [if_neg h, if_neg h]

theorem setBusy_eps_length (s : MCPState) (Dev : Nat) (f : Bool) :
    (mcp342xSetBusy s Dev f).eps.length = s.eps.length := by
  show (setBusyList _ _ _ f 0 s.eps).length = _
  rw [setBusyList_length]

theorem map2DevLoop_found (s : MCPState) (i d : Nat) (hd : d < s.numDev)
    (hin : INRANGE (s.devs.getD d default).ChLo i (s.devs.getD d default).ChHi) :
    ∀ fuel k, d - k < fuel → k ≤ d →
      (∀ j, k ≤ j → j < d →
        ¬ INRANGE (s.devs.getD j default).ChLo i (s.devs.getD j default).ChHi) →
      map2DevLoop s i fuel k = (d : Int) := by
  intro fuel
  induction fuel with
  | zero =>
      intro k h0 _ _
      exact absurd h0 (by omega)
  | succ n ih =>
      intro k hn hk hno
      rw [map2DevLoop, if_pos (by omega)]
      by_cases hr : INRANGE (s.devs.getD k default).ChLo i (s.devs.getD k default).ChHi
      · have hkd : k = d := by
          by_contra hne
          exact hno k (Nat.le_refl k) (by omega) hr
        rw [if_pos hr, hkd]
      · have hkd : k ≠ d := fun hkd => hr (hkd ▸ hin)
        rw [if_neg hr]
        exact ih (k + 1) (by omega) (by omega) (fun j h1 h2 => hno j (by omega) h2)

theorem map2DevLoop_none (s : MCPState) (i : Nat)
    (hno : ∀ j, j < s.numDev →
      ¬ INRANGE (s.devs.getD j default).ChLo i (s.devs.getD j default).ChHi) :
    ∀ fuel k, map2DevLoop s i fuel k = erFAILURE := by
  intro fuel
  induction fuel with
  | zero =>
      intro k
      rfl
  | succ n ih =>
      intro k
      by_cases hk : k < s.numDev
      · rw [map2DevLoop, if_pos hk, if_neg (hno k hk)]
        exact ih (k + 1)
      · rw [map2DevLoop, if_neg hk]

theorem map2DevLoop_inv (s : MCPState) (i : Nat) :
    ∀ (fuel k d : Nat), map2DevLoop s i fuel k = (d : Int) →
      d < s.numDev ∧
      INRANGE (s.devs.getD d default).ChLo i (s.devs.getD d default).ChHi := by
  intro fuel
  induction fuel with
  | zero =>
      intro k d heq
      exact absurd heq (by unfold map2DevLoop erFAILURE; omega)
  | succ n ih =>
      intro k d heq
      by_cases hk : k < s.numDev
      · rw [map2DevLoop, if_pos hk] at heq
        by_cases hr : INRANGE (s.devs.getD k default).ChLo i (s.devs.getD k default).ChHi
        · rw [if_pos hr] at heq
          have hkd : k = d := by omega
          subst hkd
          exact ⟨hk, hr⟩
        · rw [if_neg hr] at heq
          exact ih (k + 1) d heq
      · rw [map2DevLoop, if_neg hk] at heq
        exact absurd heq (by unfold erFAILURE; omega)

theorem map2DevLoop_congr (s s2 : MCPState) (i : Nat)
    (hnum : s2.numDev = s.numDev)
    (hrng : ∀ j, j < s.numDev →
      (s2.devs.getD j default).ChLo = (s.devs.getD j default).ChLo ∧
      (s2.devs.getD j default).ChHi = (s.devs.getD j default).ChHi) :
    ∀ fuel k, map2DevLoop s2 i fuel k = map2DevLoop s i fuel k := by
  intro fuel
  induction fuel with
  | zero =>
      intro k
      rfl
  | succ n ih =>
      intro k
      by_cases hk : k < s.numDev
      · obtain ⟨hlo, hhi⟩ := hrng k hk
        have h1 : map2DevLoop s2 i (n + 1) k =
            if INRANGE (s.devs.getD k default).ChLo i (s.devs.getD k default).ChHi
            then (k : Int) else map2DevLoop s2 i n (k + 1) := by
          rw [map2DevLoop, if_pos (by omega), hlo, hhi]
        have h2 : map2DevLoop s i (n + 1) k =
            if INRANGE (s.devs.getD k default).ChLo i (s.devs.getD k default).ChHi
            then (k : Int) else map2DevLoop s i n (k + 1) := by
          rw [map2DevLoop, if_pos hk]
        rw [h1, h2]
        by_cases hr : INRANGE (s.devs.getD k default).ChLo i (s.devs.getD k default).ChHi
        · rw [if_pos hr, if_pos hr]
        · rw [if_neg hr, if_neg hr]
          exact ih (k + 1)
      · have h1 : map2DevLoop s2 i (n + 1) k = erFAILURE := by
          rw [map2DevLoop, if_neg (by omega)]
        have h2 : map2DevLoop s i (n + 1) k = erFAILURE := by
          rw [map2DevLoop, if_neg hk]
        rw [h1, h2]

theorem mcp342xMap2Dev_found (s : MCPState) (i d : Nat) (hd : d < s.numDev)
    (hin : INRANGE (s.devs.getD d default).ChLo i (s.devs.getD d default).ChHi)
    (hno : ∀ j, j < d →
      ¬ INRANGE (s.devs.getD j default).ChLo i (s.devs.getD j default).ChHi) :
    mcp342xMap2Dev s i = (d : Int) :=
  map2DevLoop_found s i d hd hin s.numDev 0 (by omega) (by omega) (fun j _ h2 => hno j h2)

theorem mcp342xMap2Dev_none (s : MCPState) (i : Nat)
    (hno : ∀ j, j < s.numDev →
      ¬ INRANGE (s.devs.getD j default).ChLo i (s.devs.getD j default).ChHi) :
    mcp342xMap2Dev s i = erFAILURE :=
  map2DevLoop_none s i hno s.numDev 0

theorem mcp342xMap2Dev_inv (s : MCPState) (i d : Nat)
    (heq : mcp342xMap2Dev s i = (d : Int)) :
    d < s.numDev ∧
    INRANGE (s.devs.getD d default).ChLo i (s.devs.getD d default).ChHi :=
  map2DevLoop_inv s i s.numDev 0 d heq

theorem mcp342xMap2Dev_congr (s s2 : MCPState) (i : Nat)
    (hnum : s2.numDev = s.numDev)
    (hrng : ∀ j, j < s.numDev →
      (s2.devs.getD j default).ChLo = (s.devs.getD j default).ChLo ∧
      (s2.devs.getD j default).ChHi = (s.devs.getD j default).ChHi) :
    mcp342xMap2Dev s2 i = mcp342xMap2Dev s i := by
  unfold mcp342xMap2Dev
  rw [hnum]
  exact map2DevLoop_congr s s2 i hnum hrng s.numDev 0

theorem modeTagOf_maskSET2B_self (w ch v : Nat) :
    modeTagOf (maskSET2B w ch v) ch = v % 4 := by
  unfold modeTagOf maskSET2B
  have hq : 0 < 4 ^ ch := Nat.pos_pow_of_pos ch (by omega)
  rw [pow_succ]
  have harr : w % 4 ^ ch + v % 4 * 4 ^ ch + w / (4 ^ ch * 4) * (4 ^ ch * 4)
      = w % 4 ^ ch + 4 ^ ch * (v % 4 + 4 * (w / (4 ^ ch * 4))) := by ring
  rw [harr, Nat.add_mul_div_left _ _ hq, Nat.div_eq_of_lt (Nat.mod_lt w hq)]
  omega

theorem modeTagOf_maskSET2B_lt (w ch v ch2 : Nat) (h : ch2 < ch) :
    modeTagOf (maskSET2B w ch v) ch2 = modeTagOf w ch2 := by
  unfold modeTagOf maskSET2B
  have hdvd : 4 ^ ch2 * 4 ∣ 4 ^ ch := by
    rw [← pow_succ]
    exact pow_dvd_pow 4 (by omega)
  have hkey : ∀ x : Nat, x / 4 ^ ch2 % 4 = x % (4 ^ ch2 * 4) / 4 ^ ch2 := by
    intro x
    rw [Nat.mod_mul_right_div_self]
  rw [hkey, hkey w]
  have hmod : (w % 4 ^ ch + v % 4 * 4 ^ ch + w / 4 ^ (ch + 1) * 4 ^ (ch + 1)) % (4 ^ ch2 * 4)
      = w % (4 ^ ch2 * 4) := by
    obtain ⟨t, ht⟩ := hdvd
    have hch1 : (4 : Nat) ^ (ch + 1) = 4 ^ ch2 * 4 * (t * 4) := by
      rw [pow_succ, ht]
      ring
    rw [ht, hch1]
    have harr : w % (4 ^ ch2 * 4 * t) + v % 4 * (4 ^ ch2 * 4 * t)
        + w / (4 ^ ch2 * 4 * (t * 4)) * (4 ^ ch2 * 4 * (t * 4))
        = w % (4 ^ ch2 * 4 * t)
          + (4 ^ ch2 * 4) * (v % 4 * t + w / (4 ^ ch2 * 4 * (t * 4)) * (t * 4)) := by
      ring
    rw [harr]
    have h1 : (w % (4 ^ ch2 * 4 * t)
        + 4 ^ ch2 * 4 * (v % 4 * t + w / (4 ^ ch2 * 4 * (t * 4)) * (t * 4))) % (4 ^ ch2 * 4)
        = w % (4 ^ ch2 * 4 * t) % (4 ^ ch2 * 4) := by
      have := Nat.add_mul_mod_self_left (w % (4 ^ ch2 * 4 * t)) (4 ^ ch2 * 4)
        (v % 4 * t + w / (4 ^ ch2 * 4 * (t * 4)) * (t * 4))
      omega
    rw [h1, Nat.mod_mod_of_dvd w (Dvd.intro t rfl)]
  rw [hmod]

theorem modeTagOf_maskSET2B_gt (w ch v ch2 : Nat) (h : ch < ch2) :
    modeTagOf (maskSET2B w ch v) ch2 = modeTagOf w ch2 := by
  unfold modeTagOf maskSET2B
  have hq : 0 < 4 ^ (ch + 1) := Nat.pos_pow_of_pos (ch + 1) (by omega)
  have hsplit : (4 : Nat) ^ ch2 = 4 ^ (ch + 1) * 4 ^ (ch2 - (ch + 1)) := by
    rw [← pow_add]
    congr 1
    omega
  have hdiveq : (w % 4 ^ ch + v % 4 * 4 ^ ch + w / 4 ^ (ch + 1) * 4 ^ (ch + 1)) / 4 ^ (ch + 1)
      = w / 4 ^ (ch + 1) := by
    have hlt : w % 4 ^ ch + v % 4 * 4 ^ ch < 4 ^ (ch + 1) := by
      have h1 : w % 4 ^ ch < 4 ^ ch := Nat.mod_lt w (Nat.pos_pow_of_pos ch (by omega))
      have h2 : v % 4 ≤ 3 := by omega
      have h3 : v % 4 * 4 ^ ch ≤ 3 * 4 ^ ch := Nat.mul_le_mul_right _ h2
      rw [pow_succ]
      omega
    have harr : w % 4 ^ ch + v % 4 * 4 ^ ch + w / 4 ^ (ch + 1) * 4 ^ (ch + 1)
        = w % 4 ^ ch + v % 4 * 4 ^ ch + 4 ^ (ch + 1) * (w / 4 ^ (ch + 1)) := by ring
    rw [harr, Nat.add_mul_div_left _ _ hq, Nat.div_eq_of_lt hlt]
    omega
  rw [hsplit, ← Nat.div_div_eq_div_mul, ← Nat.div_div_eq_div_mul, hdiveq]

theorem modeTagOf_maskSET2B_ne (w ch v ch2 : Nat) (h : ch2 ≠ ch) :
    modeTagOf (maskSET2B w ch v) ch2 = modeTagOf w ch2 := by
  rcases Nat.lt_or_ge ch2 ch with hlt | hge
  · exact modeTagOf_maskSET2B_lt w ch v ch2 hlt
  · exact modeTagOf_maskSET2B_gt w ch v ch2 (by omega)

/-! Lemmas about applyModeOne and the mcp342xConfigMode loop. -/

theorem applyModeOne_eps (s : MCPState) (m r g j : Nat) :
    (applyModeOne s m r g j).eps = s.eps := by
  unfold applyModeOne
  by_cases h : mcp342xMap2Dev s j < 0 <;> simp [h]

theorem applyModeOne_numDev (s : MCPState) (m r g j : Nat) :
    (applyModeOne s m r g j).numDev = s.numDev := by
  unfold applyModeOne
  by_cases h : mcp342xMap2Dev s j < 0 <;> simp [h]

theorem applyModeOne_numCh (s : MCPState) (m r g j : Nat) :
    (applyModeOne s m r g j).numCh = s.numCh := by
  unfold applyModeOne
  by_cases h : mcp342xMap2Dev s j < 0 <;> simp [h]

theorem applyModeOne_devsLength (s : MCPState) (m r g j : Nat) :
    (applyModeOne s m r g j).devs.length = s.devs.length := by
  unfold applyModeOne
  by_cases h : mcp342xMap2Dev s j < 0 <;> simp [h]

theorem updDev_ChLo (D : mcp342x_t) (ch m r g : Nat) : (updDev D ch m r g).ChLo = D.ChLo := rfl

theorem updDev_ChHi (D : mcp342x_t) (ch m r g : Nat) : (updDev D ch m r g).ChHi = D.ChHi := rfl

theorem updDev_Chan (D : mcp342x_t) (ch m r g : Nat) :
    (updDev D ch m r g).Chan = D.Chan.set ch (setChanCfg (D.Chan.getD ch default) g r) := rfl

theorem updDev_Modes (D : mcp342x_t) (ch m r g : Nat) :
    (updDev D ch m r g).Modes = maskSET2B D.Modes ch m := rfl

theorem updDev_ChanLength (D : mcp342x_t) (ch m r g : Nat) :
    (updDev D ch m r g).Chan.length = D.Chan.length := by
  rw [updDev_Chan, List.length_set]

theorem setChanCfg_PGA (c : mcp342x_cfg_t) (g r : Nat) : (setChanCfg c g r).PGA = g % 4 := rfl

theorem setChanCfg_RATE (c : mcp342x_cfg_t) (g r : Nat) : (setChanCfg c g r).RATE = r % 4 := rfl

theorem applyModeOne_devs (s : MCPState) (m r g j : Nat) (h : ¬ mcp342xMap2Dev s j < 0) :
    (applyModeOne s m r g j).devs =
      s.devs.set (mcp342xMap2Dev s j).toNat
        (updDev (s.devs.getD (mcp342xMap2Dev s j).toNat default)
          (j - (s.devs.getD (mcp342xMap2Dev s j).toNat default).ChLo) m r g) := by
  simp only [applyModeOne]
  rw [if_neg h]

theorem applyModeOne_ranges (s : MCPState) (m r g j : Nat) (j2 : Nat) :
    ((applyModeOne s m r g j).devs.getD j2 default).ChLo = (s.devs.getD j2 default).ChLo ∧
    ((applyModeOne s m r g j).devs.getD j2 default).ChHi = (s.devs.getD j2 default).ChHi ∧
    ((applyModeOne s m r g j).devs.getD j2 default).Chan.length
      = (s.devs.getD j2 default).Chan.length := by
  by_cases h : mcp342xMap2Dev s j < 0
  · simp only [applyModeOne]
    rw [if_pos h]
    exact ⟨rfl, rfl, rfl⟩
  · rw [applyModeOne_devs s m r g j h, listGetD_set]
    by_cases hj2 : (mcp342xMap2Dev s j).toNat = j2 ∧ j2 < s.devs.length
    · rw [if_pos hj2]
      obtain ⟨he, _⟩ := hj2
      subst he
      exact ⟨updDev_ChLo _ _ _ _ _, updDev_ChHi _ _ _ _ _, updDev_ChanLength _ _ _ _ _⟩
    · rw [if_neg hj2]
      exact ⟨rfl, rfl, rfl⟩

theorem map2Dev_applyModeOne (s : MCPState) (m r g j x : Nat) :
    mcp342xMap2Dev (applyModeOne s m r g j) x = mcp342xMap2Dev s x :=
  mcp342xMap2Dev_congr s (applyModeOne s m r g j) x (applyModeOne_numDev s m r g j)
    (fun j2 _ => ⟨(applyModeOne_ranges s m r g j j2).1, (applyModeOne_ranges s m r g j j2).2.1⟩)

theorem mapOK_applyModeOne (s : MCPState) (m r g j i : Nat) (h : mapOK s i) :
    mapOK (applyModeOne s m r g j) i := by
  obtain ⟨h1, h2, h3⟩ := h
  refine ⟨?_, ?_, ?_⟩
  · rw [map2Dev_applyModeOne]
    exact h1
  · rw [map2Dev_applyModeOne, applyModeOne_devsLength]
    exact h2
  · rw [map2Dev_applyModeOne,
      (applyModeOne_ranges s m r g j (mcp342xMap2Dev s i).toNat).1,
      (applyModeOne_ranges s m r g j (mcp342xMap2Dev s i).toNat).2.2]
    exact h3

theorem chanTriple_applyModeOne (s : MCPState) (m r g j : Nat) (hOK : mapOK s j) :
    ∀ i, chanTriple (applyModeOne s m r g j) i =
      if i = j then some (g % 4, r % 4, m % 4) else chanTriple s i := by
  obtain ⟨hpos, hdlen, hoff⟩ := hOK
  have hmap : mcp342xMap2Dev s j = ((mcp342xMap2Dev s j).toNat : Int) :=
    (Int.toNat_of_nonneg hpos).symm
  obtain ⟨hdnum, hin⟩ := mcp342xMap2Dev_inv s j (mcp342xMap2Dev s j).toNat hmap
  have hdevs := applyModeOne_devs s m r g j (by omega)
  have hmapeq : ∀ x, mcp342xMap2Dev (applyModeOne s m r g j) x = mcp342xMap2Dev s x :=
    fun x => map2Dev_applyModeOne s m r g j x
  intro i
  by_cases hij : i = j
  · subst hij
    rw [if_pos rfl]
    simp only [chanTriple]
    rw [hmapeq i, if_neg (by omega), hdevs, listGetD_set_self _ _ _ hdlen,
      updDev_ChLo, updDev_Chan, updDev_Modes, listGetD_set_self _ _ _ hoff,
      setChanCfg_PGA, setChanCfg_RATE, modeTagOf_maskSET2B_self]
  · rw [if_neg hij]
    simp only [chanTriple]
    rw [hmapeq i]
    by_cases hneg : mcp342xMap2Dev s i < 0
    · rw [if_pos hneg, if_pos hneg]
    · rw [if_neg hneg, if_neg hneg, hdevs]
      have hmi : mcp342xMap2Dev s i = ((mcp342xMap2Dev s i).toNat : Int) :=
        (Int.toNat_of_nonneg (by omega)).symm
      obtain ⟨henum, hine⟩ := mcp342xMap2Dev_inv s i (mcp342xMap2Dev s i).toNat hmi
      by_cases hde : (mcp342xMap2Dev s j).toNat = (mcp342xMap2Dev s i).toNat
      · have hlo_j : (s.devs.getD (mcp342xMap2Dev s j).toNat default).ChLo ≤ j := hin.1
        have hlo_i : (s.devs.getD (mcp342xMap2Dev s i).toNat default).ChLo ≤ i := hine.1
        rw [← hde] at hlo_i
        have hoffne :
            j - (s.devs.getD (mcp342xMap2Dev s j).toNat default).ChLo ≠
            i - (s.devs.getD (mcp342xMap2Dev s j).toNat default).ChLo := by omega
        rw [← hde, listGetD_set_self _ _ _ hdlen, updDev_ChLo, updDev_Chan, updDev_Modes,
          listGetD_set_ne _ _ _ _ hoffne,
          modeTagOf_maskSET2B_ne _ _ _ _ (fun hc => hoffne hc.symm)]
      · rw [listGetD_set_ne _ _ _ _ hde]

theorem coveredBy_singleton (a b i : Nat) (h : b ≤ a + 1) : coveredBy a b i ↔ i = a := by
  unfold coveredBy
  omega

theorem chanTriple_applyModeOne_cov (m r g : Nat) (s : MCPState) (a b : Nat)
    (hab : b ≤ a + 1) (hOK : mapOK s a) (i : Nat) :
    chanTriple (applyModeOne s m r g a) i =
      if coveredBy a b i then some (g % 4, r % 4, m % 4) else chanTriple s i := by
  rw [chanTriple_applyModeOne s m r g a hOK i]
  by_cases hia : i = a
  · rw [if_pos hia, if_pos ((coveredBy_singleton a b i hab).mpr hia)]
  · rw [if_neg hia, if_neg (fun hc => hia ((coveredBy_singleton a b i hab).mp hc))]

theorem chanTriple_configModeLoop (m r g : Nat) :
    ∀ (fuel : Nat) (s : MCPState) (a b : Nat), b - a ≤ fuel + 1 →
      (∀ x, coveredBy a b x → mapOK s x) →
      ∀ i, chanTriple (configModeLoop m r g fuel s a b) i =
        if coveredBy a b i then some (g % 4, r % 4, m % 4) else chanTriple s i := by
  intro fuel
  induction fuel with
  | zero =>
      intro s a b h0 hOK i
      exact chanTriple_applyModeOne_cov m r g s a b (by omega)
        (hOK a (by unfold coveredBy; omega)) i
  | succ n ih =>
      intro s a b hn hOK i
      by_cases hab : a + 1 < b
      · rw [configModeLoop, if_pos hab]
        have hOKa : mapOK s a := hOK a (by unfold coveredBy; omega)
        have hOK2 : ∀ x, coveredBy (a + 1) b x → mapOK (applyModeOne s m r g a) x := by
          intro x hx
          exact mapOK_applyModeOne s m r g a x (hOK x (by unfold coveredBy at hx ⊢; omega))
        rw [ih (applyModeOne s m r g a) (a + 1) b (by omega) hOK2 i,
          chanTriple_applyModeOne s m r g a hOKa i]
        by_cases hC : coveredBy a b i
        · rw [if_pos hC]
          by_cases hC2 : coveredBy (a + 1) b i
          · rw [if_pos hC2]
          · rw [if_neg hC2]
            have hia : i = a := by unfold coveredBy at hC hC2; omega
            rw [if_pos hia]
        · rw [if_neg hC]
          have hC2 : ¬ coveredBy (a + 1) b i := by unfold coveredBy at hC ⊢; omega
          have hia : i ≠ a := by unfold coveredBy at hC; omega
          rw [if_neg hC2, if_neg hia]
      · rw [configModeLoop, if_neg hab]
        exact chanTriple_applyModeOne_cov m r g s a b (by omega)
          (hOK a (by unfold coveredBy; omega)) i

theorem configModeLoop_eps (m r g : Nat) :
    ∀ (fuel : Nat) (s : MCPState) (a b : Nat),
      (configModeLoop m r g fuel s a b).eps = s.eps := by
  intro fuel
  induction fuel with
  | zero =>
      intro s a b
      exact applyModeOne_eps s m r g a
  | succ n ih =>
      intro s a b
      rw [configModeLoop]
      by_cases hab : a + 1 < b
      · rw [if_pos hab, ih (applyModeOne s m r g a) (a + 1) b]
        exact applyModeOne_eps s m r g a
      · rw [if_neg hab]
        exact applyModeOne_eps s m r g a

/-! Lemmas about the read callback. -/

theorem readCB_devs (s : MCPState) (buf : List Nat) (ch : Nat) :
    (mcp342xReadCB s buf ch).devs = s.devs := rfl

theorem readCB_numCh (s : MCPState) (buf : List Nat) (ch : Nat) :
    (mcp342xReadCB s buf ch).numCh = s.numCh := rfl

theorem busyOf_readCB (s : MCPState) (buf : List Nat) (ch i : Nat) :
    busyOf (mcp342xReadCB s buf ch) i =
      busyOf (mcp342xSetBusy s (mcp342xMap2Dev s ch).toNat false) i := by
  unfold busyOf
  show (((mcp342xSetBusy s (mcp342xMap2Dev s ch).toNat false).eps.set ch
      { (mcp342xSetBusy s (mcp342xMap2Dev s ch).toNat false).eps.getD ch default with
          var := mcp342xScale (mcp342xRaw (mcp342xSignExtend buf)) }).getD i default).fBusy = _
  rw [listGetD_set]
  by_cases h : ch = i ∧ i < (mcp342xSetBusy s (mcp342xMap2Dev s ch).toNat false).eps.length
  · rw [if_pos h]
    obtain ⟨he, _⟩ := h
    subst he
    rfl
  · rw [if_neg h]

theorem readCB_var (s : MCPState) (buf : List Nat) (ch : Nat) (hch : ch < s.eps.length) :
    ((mcp342xReadCB s buf ch).eps.getD ch default).var =
      mcp342xScale (mcp342xRaw (mcp342xSignExtend buf)) := by
  show (((mcp342xSetBusy s (mcp342xMap2Dev s ch).toNat false).eps.set ch
      { (mcp342xSetBusy s (mcp342xMap2Dev s ch).toNat false).eps.getD ch default with
          var := mcp342xScale (mcp342xRaw (mcp342xSignExtend buf)) }).getD ch default).var = _
  rw [listGetD_set_self _ _ _ (by rw [setBusy_eps_length]; exact hch)]

theorem configMode_eps (s : MCPState) (m r g a b : Nat) :
    (mcp342xConfigMode s m r g a b).1.eps = s.eps := by
  unfold mcp342xConfigMode
  by_cases h0 : s.devs = []
  · rw [if_pos h0]
  · rw [if_neg h0]
    by_cases h1 : mcp342xM3 < m ∨ mcp342xR18_3_75 < r ∨ mcp342xG8 < g
    · rw [if_pos h1]
    · rw [if_neg h1]
      exact configModeLoop_eps m r g (b - a) s a b

/-! The claims. -/

/-- C1: in mcp342xReadCB the replacement of the leading buffer byte is as
the claim states it (0xFF when the top bit of the most significant data
byte is set, 0x00 when clear, and no replacement at 18-bit resolution), but
the composed "signed" integer is never negative: the three bytes occupy
only bits 0-23 of the 32-bit int, so for the 12-bit decode buffer with data
bytes 0xFF 0xF0 (sign bit set) the code yields Raw = 16777200 ≥ 0 where the
claim demands a negative value. The first three conjuncts evaluate the code
at concrete buffers; the last shows Raw is non-negative for every buffer. -/
theorem mcp342xReadCB_sign_bug :
    mcp342xSignExtend [0x12, 0xFF, 0xF0, 0x00] = [0xFF, 0xFF, 0xF0, 0x00] ∧
    mcp342xRaw (mcp342xSignExtend [0x12, 0xFF, 0xF0, 0x00]) = 16777200 ∧
    mcp342xSignExtend [0x12, 0x00, 0x01, 0x00] = [0x00, 0x00, 0x01, 0x00] ∧
    mcp342xSignExtend [0x7F, 0xFF, 0xF0, 0x0C] = [0x7F, 0xFF, 0xF0, 0x0C] ∧
    (∀ buf : List Nat, 0 ≤ mcp342xRaw buf) := by
  refine ⟨by decide, by decide, by decide, by decide, fun buf => ?_⟩
  exact Int.natCast_nonneg _

/-- C2 counterexample: the claim says a bus-transaction failure clears the
busy flags. In the code the trigger step marks the device busy before
queueing and its return value is the queue result; when the queue call
fails no callback will run, so the cycle ends with every channel of the
device still busy — here device 0 of a one-device configuration after
mcp342xSense(0) whose bus transaction fails. -/
theorem mcp342xBusy_failure_counterexample :
    (mcp342xSense (configAll 1) 0 erFAILURE).rv = erFAILURE ∧
    busyOf (mcp342xSense (configAll 1) 0 erFAILURE).st 0 = true ∧
    busyOf (mcp342xSense (configAll 1) 0 erFAILURE).st 1 = true ∧
    busyOf (mcp342xSense (configAll 1) 0 erFAILURE).st 2 = true ∧
    busyOf (mcp342xSense (configAll 1) 0 erFAILURE).st 3 = true := by
  decide

/-- C2 (amended): mcp342xSense sets the busy flag of every channel of the
owning device and of no other endpoint, identically for every bus-queue
outcome (including failure, whose code it returns unchanged — so a failed
transaction leaves the device busy); the decode callback mcp342xReadCB
clears the busy flag of every channel of the device and of no other
endpoint; mcp342xConfigMode and mcp342xSetSense never change a busy flag. -/
theorem mcp342xBusy_discipline (s : MCPState) (ch d : Nat)
    (hmap : mcp342xMap2Dev s ch = (d : Int))
    (hlen : s.eps.length = s.numCh) :
    (∀ (q : Int) (i : Nat), busyOf (mcp342xSense s ch q).st i =
      (if i < s.numCh ∧ INRANGE (s.devs.getD d default).ChLo i (s.devs.getD d default).ChHi
       then true else busyOf s i)) ∧
    (∀ q : Int, (mcp342xSense s ch q).rv = q) ∧
    (∀ (buf : List Nat) (i : Nat), busyOf (mcp342xReadCB s buf ch) i =
      (if i < s.numCh ∧ INRANGE (s.devs.getD d default).ChLo i (s.devs.getD d default).ChHi
       then false else busyOf s i)) ∧
    (∀ m r g a b i, busyOf (mcp342xConfigMode s m r g a b).1 i = busyOf s i) ∧
    (∀ p e : epw_t, (mcp342xSetSense p e).1.fBusy = p.fBusy ∧
      (mcp342xSetSense p e).2.fBusy = e.fBusy) := by
  have htn : (mcp342xMap2Dev s ch).toNat = d := by rw [hmap]; omega
  refine ⟨?_, fun q => rfl, ?_, ?_, ?_⟩
  · intro q i
    show busyOf (mcp342xSetBusy s (mcp342xMap2Dev s ch).toNat true) i = _
    rw [htn, busyOf_setBusy]
    by_cases hc : i < s.numCh ∧
        INRANGE (s.devs.getD d default).ChLo i (s.devs.getD d default).ChHi
    · rw [if_pos ⟨by omega, hc.1, hc.2⟩, if_pos hc]
    · rw [if_neg (fun hcc => hc ⟨hcc.2.1, hcc.2.2⟩), if_neg hc]
  · intro buf i
    rw [busyOf_readCB, htn, busyOf_setBusy]
    by_cases hc : i < s.numCh ∧
        INRANGE (s.devs.getD d default).ChLo i (s.devs.getD d default).ChHi
    · rw [if_pos ⟨by omega, hc.1, hc.2⟩, if_pos hc]
    · rw [if_neg (fun hcc => hc ⟨hcc.2.1, hcc.2.2⟩), if_neg hc]
  · intro m r g a b i
    unfold busyOf
    rw [configMode_eps]
  · intro p e
    obtain ⟨v1, T1, R1, S1, B1, x1⟩ := p
    obtain ⟨v2, T2, R2, S2, B2, x2⟩ := e
    simp only [mcp342xSetSense, MCP342X_T_SNS_MIN]
    constructor <;> split_ifs <;> rfl

/-- C2 witness: the amended busy discipline at a concrete one-device state:
a failed trigger leaves channel 3 busy, and the decode callback clears it. -/
theorem mcp342xBusy_discipline_witness :
    busyOf (mcp342xSense (configAll 1) 0 erFAILURE).st 3 = true ∧
    busyOf (mcp342xReadCB (configAll 1) [0, 0, 0, 0] 0) 3 = false := by
  have h := mcp342xBusy_discipline (configAll 1) 0 0 (by decide) (by decide)
  constructor
  · rw [h.1 erFAILURE 3]
    decide
  · rw [h.2.2.1 [0, 0, 0, 0] 3]
    decide

/-- C3: the device is registered (index assigned, counters advanced) exactly
when the probe read succeeds and byte 3 is 0x90 — but on a successful read
with a non-matching signature the probe returns erSUCCESS, not a failure
result, contradicting the claim and the function's own doc comment
(erSUCCESS only "if supported device was detected"). The second conjunct
evaluates the probe at such an input: nothing is registered, the counters
are unchanged, yet the returned code is erSUCCESS. -/
theorem mcp342xIdentify_bug :
    (∀ (rv : Int) (buf : List Nat) (nd nc : Nat),
      ((mcp342xIdentify rv buf nd nc).devIdx.isSome = true ↔
        (rv = erSUCCESS ∧ buf.getD 3 0 = 0x90)) ∧
      ((mcp342xIdentify rv buf nd nc).devIdx.isSome = true →
        (mcp342xIdentify rv buf nd nc).numDev = (nd + 1) % 256 ∧
        (mcp342xIdentify rv buf nd nc).numCh = (nc + 4) % 256 ∧
        (mcp342xIdentify rv buf nd nc).devIdx = some nd) ∧
      ((mcp342xIdentify rv buf nd nc).devIdx.isSome = false →
        (mcp342xIdentify rv buf nd nc).numDev = nd ∧
        (mcp342xIdentify rv buf nd nc).numCh = nc) ∧
      (mcp342xIdentify rv buf nd nc).rv = rv) ∧
    mcp342xIdentify erSUCCESS [0, 0, 0, 0] 0 0 =
      { rv := erSUCCESS, numDev := 0, numCh := 0, devIdx := none } ∧
    erSUCCESS ≠ erFAILURE := by
  refine ⟨?_, by decide, by decide⟩
  intro rv buf nd nc
  unfold mcp342xIdentify
  by_cases h : rv = erSUCCESS ∧ buf.getD 3 0 = 0x90
  · rw [if_pos h]
    exact ⟨iff_of_true rfl h, fun _ => ⟨rfl, rfl, rfl⟩, fun hc => by simp at hc, rfl⟩
  · rw [if_neg h]
    exact ⟨iff_of_false (by simp) h, fun hc => by simp at hc, fun _ => ⟨rfl, rfl⟩, rfl⟩

/-- C4 counterexample: with five devices (20 logical channels) the 4-bit
ChLo/ChHi bit-fields wrap mod 16 — device 4 records the range [0, 3]
instead of [16, 19] — so logical channel 16, although below the total
channel count 20, is owned by no recorded range: mcp342xMap2Dev returns
erFAILURE, not 4 as the claim requires. -/
theorem mcp342xConfig_wrap_counterexample :
    (configAll 5).numCh = 20 ∧
    ((configAll 5).devs.getD 4 default).ChLo = 0 ∧
    ((configAll 5).devs.getD 4 default).ChHi = 3 ∧
    mcp342xMap2Dev (configAll 5) 16 = erFAILURE ∧
    ¬ mcp342xMap2Dev (configAll 5) 16 = ((4 : Nat) : Int) := by
  decide

/-- C4 (amended): for N ≤ 4 devices (4 channels each, so the 4-bit
ChLo/ChHi fields do not wrap) configured in discovery order, device k's
recorded range is [4k, 4k + 3], its width equals the channel count 4,
the ranges partition [0, 4N) without gaps, mcp342xMap2Dev returns k on
every index of device k's range and erFAILURE on every index at or above
the total count 4N. With five or more devices the 4-bit fields wrap and
the partition fails. -/
theorem mcp342xConfig_partition (N : Nat) (hN : N ≤ 4) :
    (configAll N).numCh = 4 * N ∧
    (∀ k, k < N →
      ((configAll N).devs.getD k default).ChLo = 4 * k ∧
      ((configAll N).devs.getD k default).ChHi = 4 * k + 3 ∧
      ((configAll N).devs.getD k default).NumCh = 4) ∧
    (∀ k i, k < N → 4 * k ≤ i → i ≤ 4 * k + 3 →
      mcp342xMap2Dev (configAll N) i = (k : Int)) ∧
    (∀ i, 4 * N ≤ i → mcp342xMap2Dev (configAll N) i = erFAILURE) := by
  interval_cases N
  · refine ⟨by decide, fun k hk => absurd hk (by omega),
      fun k i hk _ _ => absurd hk (by omega), ?_⟩
    intro i _
    apply mcp342xMap2Dev_none
    intro j hj
    rw [show (configAll 0).numDev = 0 from by decide] at hj
    exact absurd hj (by omega)
  · refine ⟨by decide, ?_, ?_, ?_⟩
    · intro k hk
      interval_cases k
      · exact ⟨by decide, by decide, by decide⟩
    · intro k i hk h1 h2
      interval_cases k
      · have h2a : i ≤ 3 := by omega
        interval_cases i <;> decide
    · intro i hi
      apply mcp342xMap2Dev_none
      intro j hj
      rw [show (configAll 1).numDev = 1 from by decide] at hj
      interval_cases j
      · have hh : ((configAll 1).devs.getD 0 default).ChHi = 3 := by decide
        unfold INRANGE
        omega
  · refine ⟨by decide, ?_, ?_, ?_⟩
    · intro k hk
      interval_cases k
      · exact ⟨by decide, by decide, by decide⟩
      · exact ⟨by decide, by decide, by decide⟩
    · intro k i hk h1 h2
      interval_cases k
      · have h2a : i ≤ 3 := by omega
        interval_cases i <;> decide
      · have h1a : 4 ≤ i := by omega
        have h2a : i ≤ 7 := by omega
        interval_cases i <;> decide
    · intro i hi
      apply mcp342xMap2Dev_none
      intro j hj
      rw [show (configAll 2).numDev = 2 from by decide] at hj
      interval_cases j
      · have hh : ((configAll 2).devs.getD 0 default).ChHi = 3 := by decide
        unfold INRANGE
        omega
      · have hh : ((configAll 2).devs.getD 1 default).ChHi = 7 := by decide
        unfold INRANGE
        omega
  · refine ⟨by decide, ?_, ?_, ?_⟩
    · intro k hk
      interval_cases k
      · exact ⟨by decide, by decide, by decide⟩
      · exact ⟨by decide, by decide, by decide⟩
      · exact ⟨by decide, by decide, by decide⟩
    · intro k i hk h1 h2
      interval_cases k
      · have h2a : i ≤ 3 := by omega
        interval_cases i <;> decide
      · have h1a : 4 ≤ i := by omega
        have h2a : i ≤ 7 := by omega
        interval_cases i <;> decide
      · have h1a : 8 ≤ i := by omega
        have h2a : i ≤ 11 := by omega
        interval_cases i <;> decide
    · intro i hi
      apply mcp342xMap2Dev_none
      intro j hj
      rw [show (configAll 3).numDev = 3 from by decide] at hj
      interval_cases j
      · have hh : ((configAll 3).devs.getD 0 default).ChHi = 3 := by decide
        unfold INRANGE
        omega
      · have hh : ((configAll 3).devs.getD 1 default).ChHi = 7 := by decide
        unfold INRANGE
        omega
      · have hh : ((configAll 3).devs.getD 2 default).ChHi = 11 := by decide
        unfold INRANGE
        omega
  · refine ⟨by decide, ?_, ?_, ?_⟩
    · intro k hk
      interval_cases k
      · exact ⟨by decide, by decide, by decide⟩
      · exact ⟨by decide, by decide, by decide⟩
      · exact ⟨by decide, by decide, by decide⟩
      · exact ⟨by decide, by decide, by decide⟩
    · intro k i hk h1 h2
      interval_cases k
      · have h2a : i ≤ 3 := by omega
        interval_cases i <;> decide
      · have h1a : 4 ≤ i := by omega
        have h2a : i ≤ 7 := by omega
        interval_cases i <;> decide
      · have h1a : 8 ≤ i := by omega
        have h2a : i ≤ 11 := by omega
        interval_cases i <;> decide
      · have h1a : 12 ≤ i := by omega
        have h2a : i ≤ 15 := by omega
        interval_cases i <;> decide
    · intro i hi
      apply mcp342xMap2Dev_none
      intro j hj
      rw [show (configAll 4).numDev = 4 from by decide] at hj
      interval_cases j
      · have hh : ((configAll 4).devs.getD 0 default).ChHi = 3 := by decide
        unfold INRANGE
        omega
      · have hh : ((configAll 4).devs.getD 1 default).ChHi = 7 := by decide
        unfold INRANGE
        omega
      · have hh : ((configAll 4).devs.getD 2 default).ChHi = 11 := by decide
        unfold INRANGE
        omega
      · have hh : ((configAll 4).devs.getD 3 default).ChHi = 15 := by decide
        unfold INRANGE
        omega

/-- C4 witness: the partition at two configured devices — channel 5 maps to
device 1 and the total count is 8. -/
theorem mcp342xConfig_partition_witness :
    mcp342xMap2Dev (configAll 2) 5 = ((1 : Nat) : Int) ∧ (configAll 2).numCh = 4 * 2 := by
  have h := mcp342xConfig_partition 2 (by omega)
  exact ⟨h.2.2.1 1 5 (by omega) (by omega) (by omega), h.1⟩

/-- C5: mcp342xConfigMode with mode, rate or gain above 3 returns the
invalid-parameter error with the state unchanged (so every channel's
configuration is unchanged); with valid parameters it returns erSUCCESS and
writes exactly the (gain, rate, mode) triple to the channel record and
2-bit mode tag of every logical channel the do-while covers (Xcur and every
further index below Xmax), leaving every other channel's triple unchanged.
Hypotheses: some device is enumerated (else the call is rejected earlier)
and every covered channel resolves to an existing device slot. -/
theorem mcp342xConfigMode_spec (s : MCPState) (mode rate gain Xcur Xmax : Nat)
    (hdev : s.devs ≠ [])
    (hOK : ∀ x, coveredBy Xcur Xmax x → mapOK s x) :
    (mcp342xM3 < mode ∨ mcp342xR18_3_75 < rate ∨ mcp342xG8 < gain →
      mcp342xConfigMode s mode rate gain Xcur Xmax = (s, erINV_PARA)) ∧
    (mode ≤ mcp342xM3 → rate ≤ mcp342xR18_3_75 → gain ≤ mcp342xG8 →
      (mcp342xConfigMode s mode rate gain Xcur Xmax).2 = erSUCCESS ∧
      (∀ i, chanTriple (mcp342xConfigMode s mode rate gain Xcur Xmax).1 i =
        if coveredBy Xcur Xmax i then some (gain, rate, mode) else chanTriple s i)) := by
  constructor
  · intro hbad
    unfold mcp342xConfigMode
    rw [if_neg hdev, if_pos hbad]
  · intro h1 h2 h3
    simp only [mcp342xM3, mcp342xR18_3_75, mcp342xG8] at h1 h2 h3
    have heval : mcp342xConfigMode s mode rate gain Xcur Xmax =
        (configModeLoop mode rate gain (Xmax - Xcur) s Xcur Xmax, erSUCCESS) := by
      unfold mcp342xConfigMode
      rw [if_neg hdev,
        if_neg (by simp only [mcp342xM3, mcp342xR18_3_75, mcp342xG8]; omega)]
    rw [heval]
    refine ⟨rfl, ?_⟩
    intro i
    rw [show (configModeLoop mode rate gain (Xmax - Xcur) s Xcur Xmax, erSUCCESS).1
        = configModeLoop mode rate gain (Xmax - Xcur) s Xcur Xmax from rfl]
    rw [chanTriple_configModeLoop mode rate gain (Xmax - Xcur) s Xcur Xmax (by omega) hOK i]
    rw [Nat.mod_eq_of_lt (show gain < 4 by omega), Nat.mod_eq_of_lt (show rate < 4 by omega),
      Nat.mod_eq_of_lt (show mode < 4 by omega)]

/-- C5 witness: on the one-device configuration, rate = 4 is rejected with
the state unchanged, and a valid call writing (mode 2, rate 1, gain 3) to
channels 0-3 stores the triple at channel 2. -/
theorem mcp342xConfigMode_witness :
    mcp342xConfigMode (configAll 1) 1 4 0 0 4 = (configAll 1, erINV_PARA) ∧
    chanTriple (mcp342xConfigMode (configAll 1) 2 1 3 0 4).1 2 = some (3, 1, 2) := by
  have hOK1 : ∀ x, coveredBy 0 4 x → mapOK (configAll 1) x := by
    intro x hx
    have hx4 : x < 4 := by unfold coveredBy at hx; omega
    interval_cases x <;> decide
  constructor
  · exact (mcp342xConfigMode_spec (configAll 1) 1 4 0 0 4 (by decide) hOK1).1
      (Or.inr (Or.inl (by decide)))
  · have h := (mcp342xConfigMode_spec (configAll 1) 2 1 3 0 4 (by decide) hOK1).2
      (by decide) (by decide) (by decide)
    rw [h.2 2, if_pos (show coveredBy 0 4 2 by decide)]

/-- C6: on conversion-timer expiry the queued read length is 4 bytes exactly
when the triggered channel's configured resolution is 18-bit (RATE = 3) and
3 bytes exactly otherwise. -/
theorem mcp342xTimerHdlr_readLen (s : MCPState) (ch : Nat) :
    ((mcp342xTimerHdlr s ch).1 = 4 ↔ chanRATE s ch = mcp342xR18_3_75) ∧
    ((mcp342xTimerHdlr s ch).1 = 3 ↔ chanRATE s ch ≠ mcp342xR18_3_75) := by
  have htl : (mcp342xTimerHdlr s ch).1 =
      if chanRATE s ch = mcp342xR18_3_75 then 4 else 3 := rfl
  rw [htl]
  by_cases h : chanRATE s ch = mcp342xR18_3_75
  · rw [if_pos h]
    exact ⟨iff_of_true rfl h, iff_of_false (by omega) (fun hc => hc h)⟩
  · rw [if_neg h]
    exact ⟨iff_of_false (by omega) h, iff_of_true rfl h⟩

/-- C7: the conversion-delay table is strictly increasing in the resolution
index; each entry is the required settling time (4.167, 16.667, 66.667,
266.667 ms, held in requiredDelayUs in microseconds) rounded up to the next
whole millisecond; and mcp342xSense arms the conversion timer with the
table entry at the channel's configured RATE. The table is a constant
definition and no operation of the embedding writes it. -/
theorem mcp342xDelay_spec :
    (mcp342xDelay 0 < mcp342xDelay 1 ∧ mcp342xDelay 1 < mcp342xDelay 2 ∧
      mcp342xDelay 2 < mcp342xDelay 3) ∧
    (∀ r, r < 4 → requiredDelayUs r ≤ 1000 * mcp342xDelay r ∧
      1000 * mcp342xDelay r < requiredDelayUs r + 1000) ∧
    (∀ (s : MCPState) (ch : Nat) (q : Int),
      (mcp342xSense s ch q).delayMs = mcp342xDelay (chanRATE s ch)) := by
  refine ⟨by decide, ?_, fun s ch q => rfl⟩
  intro r hr
  interval_cases r
  · exact ⟨by decide, by decide⟩
  · exact ⟨by decide, by decide⟩
  · exact ⟨by decide, by decide⟩
  · exact ⟨by decide, by decide⟩

/-- C8: the decode step stores mcp342xScale of the composed raw integer —
raw times 0.000015625, modelled as exact rational arithmetic — into the
triggered logical channel's endpoint slot; the scale function takes no gain
argument, so no gain-dependent rescaling exists; and raw 65536 scales to
exactly 1.024. -/
theorem mcp342xReadCB_scale (s : MCPState) (buf : List Nat) (ch : Nat)
    (hch : ch < s.eps.length) :
    ((mcp342xReadCB s buf ch).eps.getD ch default).var =
      mcp342xScale (mcp342xRaw (mcp342xSignExtend buf)) ∧
    (∀ Raw : Int, mcp342xScale Raw = (Raw : ℚ) * (15625 / 1000000000)) ∧
    mcp342xScale 65536 = 1024 / 1000 := by
  refine ⟨readCB_var s buf ch hch, fun Raw => rfl, ?_⟩
  norm_num [mcp342xScale]

/-- C8 witness: an 18-bit decode buffer holding raw 0x010000 stored at
channel 0 of the one-device configuration yields exactly 1.024. -/
theorem mcp342xReadCB_scale_witness :
    ((mcp342xReadCB (configAll 1) [1, 0, 0, 12] 0).eps.getD 0 default).var = 1024 / 1000 := by
  have h := mcp342xReadCB_scale (configAll 1) [1, 0, 0, 12] 0 (by decide)
  rw [h.1, show mcp342xSignExtend [1, 0, 0, 12] = [1, 0, 0, 12] from by decide,
    show mcp342xRaw [1, 0, 0, 12] = 65536 from by decide]
  exact h.2.2

/-- C9: mcp342xSetBusy touches nothing but endpoint busy flags — the device
table, counters and endpoint-table length are unchanged; every endpoint
whose index lies in the device's [ChLo, ChHi] range gets exactly its fBusy
field replaced (all other fields kept); every endpoint outside the range is
completely unchanged. Hypotheses: the endpoint table has numCh entries and
the device's ChHi is below numCh, as in every configured state. -/
theorem mcp342xSetBusy_frame (s : MCPState) (Dev : Nat) (f : Bool)
    (hlen : s.eps.length = s.numCh)
    (hhi : (s.devs.getD Dev default).ChHi < s.numCh) :
    (mcp342xSetBusy s Dev f).devs = s.devs ∧
    (mcp342xSetBusy s Dev f).numDev = s.numDev ∧
    (mcp342xSetBusy s Dev f).numCh = s.numCh ∧
    (mcp342xSetBusy s Dev f).eps.length = s.eps.length ∧
    (∀ i, INRANGE (s.devs.getD Dev default).ChLo i (s.devs.getD Dev default).ChHi →
      (mcp342xSetBusy s Dev f).eps.getD i default =
        { s.eps.getD i default with fBusy := f }) ∧
    (∀ i, ¬ INRANGE (s.devs.getD Dev default).ChLo i (s.devs.getD Dev default).ChHi →
      (mcp342xSetBusy s Dev f).eps.getD i default = s.eps.getD i default) := by
  refine ⟨rfl, rfl, rfl, setBusy_eps_length s Dev f, ?_, ?_⟩
  · intro i hi
    have hle : i ≤ (s.devs.getD Dev default).ChHi := hi.2
    rw [setBusy_getD, if_pos ⟨by omega, by omega, hi⟩]
  · intro i hi
    rw [setBusy_getD, if_neg (fun hc => hi hc.2.2)]

/-- C9 witness: on the one-device configuration, setting busy on device 0
replaces exactly the fBusy field of endpoint 2. -/
theorem mcp342xSetBusy_frame_witness :
    (mcp342xSetBusy (configAll 1) 0 true).eps.getD 2 default =
      { (configAll 1).eps.getD 2 default with fBusy := true } :=
  (mcp342xSetBusy_frame (configAll 1) 0 true (by decide) (by decide)).2.2.2.2.1 2 (by decide)

/-- C10: after mcp342xSetSense on a primary/secondary endpoint pair, the
secondary's Tsns is max(old, 250) — the clamp up to the minimum 250 —
unless the primary's fSECsns flag is 0, in which case it is zeroed; the
primary's Tsns becomes min(old primary, clamped secondary), hence never
increases; and the primary's Rsns counter is reset to the updated primary
Tsns. -/
theorem mcp342xSetSense_spec (psEWP psEWS : epw_t) :
    (mcp342xSetSense psEWP psEWS).2.Tsns =
      (if psEWP.fSECsns = 0 then 0 else max psEWS.Tsns MCP342X_T_SNS_MIN) ∧
    (mcp342xSetSense psEWP psEWS).1.Tsns =
      min psEWP.Tsns (max psEWS.Tsns MCP342X_T_SNS_MIN) ∧
    (mcp342xSetSense psEWP psEWS).1.Tsns ≤ psEWP.Tsns ∧
    (mcp342xSetSense psEWP psEWS).1.Rsns = (mcp342xSetSense psEWP psEWS).1.Tsns := by
  obtain ⟨v1, T1, R1, S1, B1, x1⟩ := psEWP
  obtain ⟨v2, T2, R2, S2, B2, x2⟩ := psEWS
  simp only [mcp342xSetSense, MCP342X_T_SNS_MIN]
  split_ifs <;> simp_all <;> omega

end MCP342X
